import Mathlib

/-!
# Verification of the financial-chat intent-extraction pipeline

Shallow embedding of the deterministic core of `api/agent_service.py`
(`AIAgent.processUserInput`, the module-level `sessions` dict and the
`clear_session` endpoint) and of
`api/pattern_matcher.py` (`ScenarioPatternMatcher.match_scenario`,
`_calculate_match_score`, `get_matcher`).

Modelling conventions:
* Python `dict`s are association lists with Python insertion-order
  semantics (assignment updates in place or appends, `pop`/`del` remove).
* Python exceptions are values of `PyErr` (class name + message) threaded
  through `Except`; a `try/except ValueError` block catches exactly the
  errors whose `name` is `"ValueError"`.
* CPython `float` is modelled by `PyFloat`: a finite scaled decimal, the
  two infinities, or NaN.  `float(str)` parsing covers sign, `inf`,
  `infinity`, `nan` and decimal/exponent notation, including overflow to
  infinity at the exact IEEE round-to-nearest threshold (magnitude at
  least `2 ^ 1024 - 2 ^ 970`); digit-group underscores are not modelled.
  `int(float)` truncates toward zero and raises `OverflowError` on
  infinities and `ValueError` on NaN, as in CPython.  Finite payloads of
  the tag coercion stay exact decimals (no settled claim observes their
  binary rounding), while the amount patterns compute
  `int(float(group) * mult)` with full round-to-nearest-even double
  rounding (`flPos`), as CPython does.
* Match scores and the confidence are represented in hundredths
  (50 = 0.5, 45 = the 0.45 threshold, 90 = 0.9): every comparison the
  source performs on the reachable score lattice is preserved exactly.
* Regular-expression searches are replaced by hand-rolled scanners that
  implement leftmost-match semantics of the concrete patterns appearing in
  the source.
* The LLM call, the system prompt and the context prompt are external
  collaborators; they enter the model as parameters (`llm`, `sp`, `cp`).
-/

deriving instance DecidableEq for Except

set_option maxRecDepth 16384

/-- Python `\s` (ASCII part), as used by `re` and `str.split()`/`strip()`. -/
def isPySpace (c : Char) : Bool :=
  c == ' ' || c == '\t' || c == '\n' || c == '\r' || c == '\x0b' || c == '\x0c'

/-- Python regex `\w` word character (ASCII part): letters, digits, underscore. -/
def isWordChar (c : Char) : Bool :=
  c.isAlphanum || c == '_'

/-- Numeric value of a string of decimal digits. -/
def natOfDigits (l : List Char) : ℕ :=
  l.foldl (fun n c => 10 * n + (c.toNat - 48)) 0

/-- Python `str.strip()`: remove leading and trailing whitespace. -/
def pyStrip (s : List Char) : List Char :=
  ((s.dropWhile isPySpace).reverse.dropWhile isPySpace).reverse

/-- Python `str.lower()` (ASCII case folding). -/
def lowerStr (s : String) : String :=
  String.mk (s.data.map Char.toLower)

/-- Python `c in s` for a single character. -/
def containsChar (s : String) (c : Char) : Bool :=
  s.data.contains c

/-- Lookup in an association list (Python `d.get(k)` / `d[k]`). -/
def alistGet? {α : Type} : List (String × α) → String → Option α
  | [], _ => none
  | (k, v) :: rest, key => if k = key then some v else alistGet? rest key

/-- Python `d[k] = v`: update in place if the key exists, else append. -/
def alistSet {α : Type} : List (String × α) → String → α → List (String × α)
  | [], key, v => [(key, v)]
  | (k, w) :: rest, key, v =>
    if k = key then (key, v) :: rest else (k, w) :: alistSet rest key v

/-- Python `d.pop(k)` / `del d[k]` (key assumed present where the code uses it). -/
def alistRemove {α : Type} : List (String × α) → String → List (String × α)
  | [], _ => []
  | (k, w) :: rest, key => if k = key then rest else (k, w) :: alistRemove rest key

/-- A Python exception: class name and message. -/
structure PyErr where
  name : String
  msg : String
deriving DecidableEq, Repr

/-- CPython `float` values: a finite value represented exactly as the
scaled decimal `n / 10 ^ scale`, the two infinities, or NaN.  (CPython
rounds to binary; the decimal model is exact on every literal, and no
claim depends on binary rounding.) -/
inductive PyFloat where
  | finite (n : ℤ) (scale : ℕ)
  | inf
  | neginf
  | nan
deriving DecidableEq, Repr

/-- Strip a leading sign; `true` means negative. -/
def splitSign : List Char → Bool × List Char
  | '+' :: r => (false, r)
  | '-' :: r => (true, r)
  | t => (false, t)

/-- Unsigned decimal literal accepted by `float()`: digits with optional
fractional part and optional exponent; at least one mantissa digit.
Returns the exact value as a scaled decimal `(n, scale)` = `n / 10 ^ scale`. -/
def parseDecimal (s : List Char) : Option (ℕ × ℕ) :=
  let ip := s.takeWhile Char.isDigit
  let s1 := s.dropWhile Char.isDigit
  let fp :=
    match s1 with
    | c :: r => if c = '.' then r.takeWhile Char.isDigit else []
    | [] => []
  let s2 :=
    match s1 with
    | c :: r => if c = '.' then r.dropWhile Char.isDigit else s1
    | [] => s1
  if ip.isEmpty && fp.isEmpty then none else
  let n0 := natOfDigits (ip ++ fp)
  let k0 := fp.length
  match s2 with
  | [] => some (n0, k0)
  | c :: r =>
    if c = 'e' then
      let p := splitSign r
      let ed := p.2.takeWhile Char.isDigit
      if ed.isEmpty || !(p.2.dropWhile Char.isDigit).isEmpty then none
      else some (if p.1 then (n0, k0 + natOfDigits ed) else (n0 * 10 ^ natOfDigits ed, k0))
    else none

/-- The overflow midpoint of IEEE double precision: a value whose
magnitude is at least `2 ^ 1024 - 2 ^ 970` rounds to infinity under
round-to-nearest. -/
def dblOverMid : ℕ := 2 ^ 1024 - 2 ^ 970

/-- Does the nonnegative decimal `n / 10 ^ k` round to infinity? -/
def decOverflows (n k : ℕ) : Bool := dblOverMid * 10 ^ k ≤ n

/-- CPython `float(str)`: strip, case-fold, sign, then `inf`/`infinity`/`nan`
or decimal notation, with overflow to the signed infinity at the exact
IEEE threshold; raises `ValueError` otherwise. -/
def pyFloat (s : List Char) : Except PyErr PyFloat :=
  let p := splitSign ((pyStrip s).map Char.toLower)
  if p.2 = "inf".data ∨ p.2 = "infinity".data then
    .ok (if p.1 then .neginf else .inf)
  else if p.2 = "nan".data then .ok .nan
  else
    match parseDecimal p.2 with
    | some nk =>
      if decOverflows nk.1 nk.2 then .ok (if p.1 then .neginf else .inf)
      else .ok (.finite (if p.1 then -(nk.1 : ℤ) else (nk.1 : ℤ)) nk.2)
    | none => .error ⟨"ValueError", "could not convert string to float: " ++ String.mk s⟩

/-- CPython `int(str)`: strip, optional sign, decimal digits only. -/
def pyIntStr (s : List Char) : Except PyErr Int :=
  let p := splitSign (pyStrip s)
  if !p.2.isEmpty && p.2.all Char.isDigit then
    .ok (if p.1 then -(natOfDigits p.2 : Int) else (natOfDigits p.2 : Int))
  else .error ⟨"ValueError", "invalid literal for int with base 10: " ++ String.mk s⟩

/-- CPython `int(float)`: truncates finite floats toward zero, raises on
`inf`/`nan`. -/
def pyIntOfFloat : PyFloat → Except PyErr Int
  | .finite n k => .ok (Int.tdiv n ((10 ^ k : ℕ) : ℤ))
  | .inf => .error ⟨"OverflowError", "cannot convert float infinity to integer"⟩
  | .neginf => .error ⟨"OverflowError", "cannot convert float infinity to integer"⟩
  | .nan => .error ⟨"ValueError", "cannot convert float NaN to integer"⟩

/-- Multiplication of a CPython float by a positive natural constant (the
source multiplies by 1000 or 1000000).  A finite product keeps its exact
scaled-decimal payload but overflows to the signed infinity when its
magnitude reaches the double-overflow midpoint, as the CPython product
does.  (The threshold is evaluated on the exact decimal; CPython applies
it to the binary-rounded parse, which can shift the boundary by one unit
in the last place — no claim sits at that boundary.) -/
def pyFloatMul (f : PyFloat) (c : ℕ) : PyFloat :=
  match f with
  | .finite n k =>
    if decOverflows (n * (c : ℤ)).natAbs k then
      (if n * (c : ℤ) < 0 then .neginf else .inf)
    else .finite (n * (c : ℤ)) k
  | .inf => if 0 < c then .inf else .nan
  | .neginf => if 0 < c then .neginf else .nan
  | .nan => .nan

/-- A parameter value as stored in `intent_params`. -/
inductive PyValue where
  | int (n : ℤ)
  | float (f : PyFloat)
  | str (s : String)
deriving DecidableEq, Repr

/-- `val_str = value.lower().strip()` (line 294). -/
def valStrOf (value : String) : List Char :=
  pyStrip (value.data.map Char.toLower)

/-- `int(float(vs[:-1]) * mult)` for the `k`/`m` suffix branches. -/
def kmCoerce (vs : List Char) (mult : ℕ) : Except PyErr PyValue :=
  match pyFloat vs.dropLast with
  | .error e => .error e
  | .ok f => (pyIntOfFloat (pyFloatMul f mult)).map PyValue.int

/-- The tag-value coercion of `AIAgent.processUserInput` (the body of the
`try:` at lines 292-304): date shape, `k`-suffix, `m`-suffix, float, int.
Errors are the exceptions the body can raise. -/
def coerceTry (value : String) : Except PyErr PyValue :=
  if value.data.contains '-' ∧ value.data.length = 10 then .ok (.str value)
  else if (valStrOf value).getLast? = some 'k' then kmCoerce (valStrOf value) 1000
  else if (valStrOf value).getLast? = some 'm' then kmCoerce (valStrOf value) 1000000
  else if value.data.contains '.' then (pyFloat value.data).map PyValue.float
  else (pyIntStr value.data).map PyValue.int

/-- The coercion together with its `except ValueError:` handler (line 305),
which keeps the raw string.  Exceptions other than `ValueError` escape. -/
def coerceValue (value : String) : Except PyErr PyValue :=
  match coerceTry value with
  | .ok v => .ok v
  | .error e => if e.name = "ValueError" then .ok (.str value) else .error e

/-- Skip an optional leading `£` (the regex piece `£?`). -/
def dropPound (s : List Char) : List Char :=
  match s with
  | c :: r => if c = '£' then r else c :: r
  | [] => []

/-- The optional fraction `(?:\.\d+)?`: taken only when a dot is directly
followed by at least one digit.  Returns (captured part, remainder). -/
def fracAt (s : List Char) : List Char × List Char :=
  match s with
  | c :: r =>
    if c = '.' then
      let fs := r.takeWhile Char.isDigit
      if fs.isEmpty then ([], s) else ('.' :: fs, r.dropWhile Char.isDigit)
    else ([], s)
  | [] => ([], s)

/-- The `(\d+(?:\.\d+)?)\s*X` tail of patterns 1 and 2, applied after the
optional `£` and leading whitespace have been consumed. -/
def numTail (unit : Char) (s2 : List Char) : Option (List Char) :=
  let ds := s2.takeWhile Char.isDigit
  if ds.isEmpty then none else
  let fr := fracAt (s2.dropWhile Char.isDigit)
  match fr.2.dropWhile isPySpace with
  | c :: _ => if c.toLower = unit then some (ds ++ fr.1) else none
  | [] => none

/-- Anchored match of `£?\s*(\d+(?:\.\d+)?)\s*X` (with `X` the unit letter,
case-insensitively); returns the captured number group.  Used for the
millions pattern (`m`, the trailing `(?:illion)?` never affects success)
and the thousands pattern (`k`). -/
def suffixNumAt (unit : Char) (s : List Char) : Option (List Char) :=
  numTail unit ((dropPound s).dropWhile isPySpace)

/-- Greedy `(?:,\d{3})+`-style scan: maximal run of `,ddd` groups.
Returns (consumed characters, remainder). -/
def commaTriples : List Char → List Char × List Char
  | ',' :: a :: b :: c :: rest =>
    if a.isDigit && b.isDigit && c.isDigit then
      let g := commaTriples rest
      (',' :: a :: b :: c :: g.1, g.2)
    else ([], ',' :: a :: b :: c :: rest)
  | s => ([], s)

/-- `\d{1,3}` taking exactly `n` digits followed by at least one `,ddd`
group (one backtracking alternative of pattern 3). -/
def poundGroupedAt (s : List Char) (n : ℕ) : Option (List Char) :=
  let ds := s.take n
  if ds.length = n ∧ ds.all Char.isDigit then
    let g := (commaTriples (s.drop n)).1
    if g.isEmpty then none else some (ds ++ g)
  else none

/-- Anchored match of pattern 3, `£\s*(\d{1,3}(?:,\d{3})+)`, with the
greedy-then-backtrack behaviour of `\d{1,3}`. -/
def p3At (s : List Char) : Option (List Char) :=
  match s with
  | c :: r =>
    if c = '£' then
      let t := r.dropWhile isPySpace
      match poundGroupedAt t 3 with
      | some g => some g
      | none =>
        match poundGroupedAt t 2 with
        | some g => some g
        | none => poundGroupedAt t 1
    else none
  | [] => none

/-- If `k` is a prefix of `s`, the remainder. -/
def afterLit : List Char → List Char → Option (List Char)
  | s, [] => some s
  | [], _ :: _ => none
  | c :: cs, k :: ks => if c = k then afterLit cs ks else none

/-- `£?\s*(\d+(?:,\d{3})*)`: the number part of pattern 4. -/
def p4Num (s : List Char) : Option (List Char) :=
  let s2 := (dropPound s).dropWhile isPySpace
  let ds := s2.takeWhile Char.isDigit
  if ds.isEmpty then none
  else some (ds ++ (commaTriples (s2.dropWhile Char.isDigit)).1)

/-- The part of pattern 4 after the mandatory whitespace: optional
`of\s+` (tried first, as the regex engine does), then the number. -/
def p4Tail (s : List Char) : Option (List Char) :=
  let withOf :=
    match afterLit s "of".data with
    | some r =>
      if (r.takeWhile isPySpace).isEmpty then none
      else p4Num (r.dropWhile isPySpace)
    | none => none
  match withOf with
  | some g => some g
  | none => p4Num s

/-- The first of the alternatives `amount|target|save|need` that is a
prefix (their first letters are pairwise distinct, so at most one is). -/
def contextKeywordAt (s : List Char) : Option (List Char) :=
  match afterLit s "amount".data with
  | some r => some r
  | none =>
    match afterLit s "target".data with
    | some r => some r
    | none =>
      match afterLit s "save".data with
      | some r => some r
      | none => afterLit s "need".data

/-- Anchored match of pattern 4,
`(?:amount|target|save|need)\s+(?:of\s+)?£?\s*(\d+(?:,\d{3})*)`. -/
def p4At (s : List Char) : Option (List Char) :=
  match contextKeywordAt s with
  | some rest =>
    if (rest.takeWhile isPySpace).isEmpty then none
    else p4Tail (rest.dropWhile isPySpace)
  | none => none

/-- `re.search` leftmost semantics: try the anchored matcher at every
position, left to right. -/
def searchPat (f : List Char → Option (List Char)) : List Char → Option (List Char)
  | [] => f []
  | c :: cs =>
    match f (c :: cs) with
    | some g => some g
    | none => searchPat f cs

/-- Bit length of a natural number (0 for 0); fuel-based so that it
kernel-reduces. -/
def bitlenAux : ℕ → ℕ → ℕ
  | 0, _ => 0
  | fuel + 1, n => if n = 0 then 0 else bitlenAux fuel (n / 2) + 1

/-- Bit length: `2 ^ (bitlen n - 1) ≤ n < 2 ^ bitlen n` for `n ≥ 1`. -/
def bitlen (n : ℕ) : ℕ := bitlenAux n n

/-- Round `a / b` (`b ≥ 1`) on the grid `2 ^ (-s)`: the integer nearest
to `a · 2 ^ s / b` (ties to even), paired with the exponent `-s`. -/
def flPosAux (a b : ℕ) (s : ℤ) : ℕ × ℤ :=
  let A := a * 2 ^ s.toNat
  let B := b * 2 ^ (-s).toNat
  let q := A / B
  let r := A % B
  let m :=
    if B < 2 * r then q + 1
    else if 2 * r < B then q
    else if q % 2 = 1 then q + 1 else q
  (m, -s)

/-- Round the nonnegative rational `a / b` (`b ≥ 1`) to the IEEE double
grid, round-to-nearest ties-to-even: `some (m, e)` denotes the double
`m · 2 ^ e`; `none` is overflow to infinity.  Values below the normal
range round on the fixed subnormal grid `2 ^ (-1074)`.  (Exhaustively
cross-checked against CPython floats on random and boundary inputs.) -/
def flPos (a b : ℕ) : Option (ℕ × ℤ) :=
  if a = 0 then some (0, 0) else
  let s0 : ℤ := 52 - ((bitlen a : ℤ) - (bitlen b : ℤ))
  let q0 := (a * 2 ^ s0.toNat) / (b * 2 ^ (-s0).toNat)
  let s1 : ℤ := if q0 < 2 ^ 52 then s0 + 1 else s0
  let me := flPosAux a b s1
  let me2 := if me.1 = 2 ^ 53 then ((2 ^ 52 : ℕ), me.2 + 1) else me
  if me2.2 < -1074 then some (flPosAux a b 1074)
  else if 971 < me2.2 then none
  else some me2

/-- `int` of a nonnegative double `m · 2 ^ e`: truncation (= floor). -/
def dblToInt (me : ℕ × ℤ) : ℤ :=
  if 0 ≤ me.2 then ((me.1 * 2 ^ me.2.toNat : ℕ) : ℤ)
  else ((me.1 / 2 ^ (-me.2).toNat : ℕ) : ℤ)

/-- `int(float(group) * mult)` for a captured `\d+(?:\.\d+)?` group of
patterns 1 and 2, with CPython semantics: the group's exact decimal value
is rounded to the nearest double, multiplied, rounded again, truncated.
When either rounding overflows to infinity the program raises
`OverflowError` instead (groups of magnitude around `1.8 · 10 ^ 308` and
beyond), which aborts the turn into an error response; that raising
regime is outside every theorem below — each carries an explicit
smallness bound — and is mapped to 0 here. -/
def groupAmountScaled (g : List Char) (mult : ℕ) : ℤ :=
  let ip := g.takeWhile Char.isDigit
  let fs :=
    match g.dropWhile Char.isDigit with
    | '.' :: fs => fs
    | _ => []
  match flPos (natOfDigits (ip ++ fs)) (10 ^ fs.length) with
  | none => 0
  | some me =>
    match flPos (me.1 * mult * 2 ^ me.2.toNat) (2 ^ (-me.2).toNat) with
    | none => 0
    | some me2 => dblToInt me2

/-- `int(group.replace(',', ''))` for patterns 3 and 4. -/
def digitsOnlyInt (g : List Char) : ℤ :=
  (natOfDigits (g.filter (fun c => c ≠ ',')) : ℤ)

/-- One loop iteration of RULE 2 (lines 253-271): the four patterns tried
in priority order on a single user message. -/
def extractFromTurn (msg : String) : Option ℤ :=
  match searchPat (suffixNumAt 'm') msg.data with
  | some g => some (groupAmountScaled g 1000000)
  | none =>
    match searchPat (suffixNumAt 'k') msg.data with
    | some g => some (groupAmountScaled g 1000)
    | none =>
      match searchPat p3At msg.data with
      | some g => some (digitsOnlyInt g)
      | none => (searchPat p4At msg.data).map digitsOnlyInt

/-- Scan turns (already newest first) until one matches a pattern. -/
def extractAmountGo : List String → Option ℤ
  | [] => none
  | m :: rest =>
    match extractFromTurn m with
    | some a => some a
    | none => extractAmountGo rest

/-- RULE 2, the amount extractor: scan all user messages, most recent
first, stopping at the first turn in which any pattern matches. -/
def extractAmount (user_messages : List String) : Option ℤ :=
  extractAmountGo user_messages.reverse

/-- Case-insensitive prefix test (the matched region of `\b<kw>\b` with
`re.IGNORECASE`). -/
def isPrefixCI : List Char → List Char → Bool
  | _, [] => true
  | [], _ :: _ => false
  | c :: cs, k :: ks => c.toLower == k.toLower && isPrefixCI cs ks

/-- `\b` at a position: exactly one of the two neighbouring characters
(string edges count as non-word) is a word character. -/
def wordBoundary (a b : Option Char) : Bool :=
  (match a with | some c => isWordChar c | none => false)
    != (match b with | some c => isWordChar c | none => false)

/-- Does `\b<kw>\b` match at the start of `text` (whose previous character
is `prev`)? -/
def wordMatchHere (kw : List Char) (prev : Option Char) (text : List Char) : Bool :=
  isPrefixCI text kw
    && wordBoundary prev text.head?
    && wordBoundary (text.take kw.length).getLast? (text.drop kw.length).head?

/-- Scan for `\b<kw>\b` anywhere in the text. -/
def wordMatchAux (kw : List Char) (prev : Option Char) : List Char → Bool
  | [] => wordMatchHere kw prev []
  | c :: cs => wordMatchHere kw prev (c :: cs) || wordMatchAux kw (some c) cs

/-- `re.search(r'\b' + re.escape(keyword) + r'\b', text, re.IGNORECASE)`
(lines 79-80 of `pattern_matcher.py`).  An empty keyword gives `\b\b`,
which matches iff the text has a word character at an edge position. -/
def wordMatch (kw text : String) : Bool :=
  if kw.data.isEmpty then text.data.any isWordChar
  else wordMatchAux kw.data none text.data

/-- Python `str.split()`: whitespace-separated words, empties dropped. -/
def pySplitWsAux : List Char → List Char → List (List Char)
  | [], acc => if acc.isEmpty then [] else [acc.reverse]
  | c :: cs, acc =>
    if isPySpace c then
      if acc.isEmpty then pySplitWsAux cs [] else acc.reverse :: pySplitWsAux cs []
    else pySplitWsAux cs (c :: acc)

/-- `len(keyword.split())`. -/
def wordCount (s : String) : ℕ :=
  (pySplitWsAux s.data []).length

/-- `ScenarioPatternMatcher._calculate_match_score`: base 0.5 for any
keyword hit, +0.3 if some matched keyword is a multi-word phrase, +0.2 for
two or more matches, capped at 1.0.  Scores are represented in hundredths
(50 = 0.5, 45 = the 0.45 threshold, ...): the reachable score lattice
{0, 0.5, 0.7, 0.8, 1.0} and every comparison the source performs on it
are preserved exactly. -/
def calculate_match_score (text : String) (keywords : List String) : ℕ :=
  if keywords.isEmpty then 0 else
  let matched := keywords.filter (fun k => wordMatch k text)
  if matched.isEmpty then 0 else
  let score : ℕ := 50
  let score := if matched.any (fun k => 2 ≤ wordCount k) then score + 30 else score
  let score := if 2 ≤ matched.length then score + 20 else score
  min score 100

/-- The last `n` elements of a list (Python `l[-n:]`). -/
def lastN {α : Type} (n : ℕ) (l : List α) : List α :=
  l.drop (l.length - n)

/-- One step of the best-score fold in `match_scenario` (strictly greater
scores replace the current best). -/
def matchStep (st : String) (best : Option String × ℕ) (sc : String × List String) :
    Option String × ℕ :=
  let score := calculate_match_score st sc.2
  if best.2 < score then (some sc.1, score) else best

/-- `ScenarioPatternMatcher.match_scenario`: lower-case the text, widen it
with the last 3 history turns when a non-empty history is given, score
every scenario of the library, and accept the best iff its score is at
least 0.45.  The library is the flattened `scenario_map` restricted to
what matching uses: scenario id and keyword list. -/
def match_scenario (lib : List (String × List String)) (text : String)
    (history : Option (List String)) : Option (String × ℕ) :=
  let textLower := lowerStr text
  let searchText :=
    match history with
    | some h =>
      if h.isEmpty then textLower
      else String.intercalate " " (lastN 3 h ++ [textLower])
    | none => textLower
  let best := lib.foldl (matchStep searchText) (none, 0)
  if 45 ≤ best.2 then best.1.map (fun b => (b, best.2)) else none

/-- A parameter dictionary (`intent_params`). -/
abbrev PyDict := List (String × PyValue)

/-- Anchored match of `\[INTENT:([^\]]+)\]`: the literal opener, then at
least one non-`]` character (greedily, up to the first `]`), then `]`.
Returns the captured group. -/
def tagContentAt (s : List Char) : Option (List Char) :=
  match afterLit s "[INTENT:".data with
  | some r =>
    let content := r.takeWhile (fun c => c ≠ ']')
    match r.dropWhile (fun c => c ≠ ']') with
    | ']' :: _ => if content.isEmpty then none else some content
    | _ => none
  | none => none

/-- `re.search(r'\[INTENT:([^\]]+)\]', assistant_message)`: group of the
leftmost tag. -/
def findIntentTag : List Char → Option (List Char)
  | [] => none
  | c :: cs =>
    match tagContentAt (c :: cs) with
    | some content => some content
    | none => findIntentTag cs

/-- Python `str.split(sep)` (single-char separator, keeps empties). -/
def splitOnCharAux (sep : Char) : List Char → List Char → List (List Char)
  | [], acc => [acc.reverse]
  | c :: cs, acc =>
    if c = sep then acc.reverse :: splitOnCharAux sep cs []
    else splitOnCharAux sep cs (c :: acc)

/-- Python `part.split(':', 1)`: key before the first colon, value after. -/
def splitFirstColon (p : List Char) : List Char × List Char :=
  (p.takeWhile (fun c => c ≠ ':'), (p.dropWhile (fun c => c ≠ ':')).drop 1)

/-- The key/value loop over the tag's `|`-segments (lines 287-306):
segments without a colon are skipped; key and value are stripped; the
value is coerced; a coercion exception aborts the whole loop. -/
def parseParams : List (List Char) → PyDict → Except PyErr PyDict
  | [], d => .ok d
  | p :: ps, d =>
    if p.contains ':' then
      let kv := splitFirstColon p
      let key := String.mk (pyStrip kv.1)
      let value := String.mk (pyStrip kv.2)
      match coerceValue value with
      | .error e => .error e
      | .ok v => parseParams ps (alistSet d key v)
    else parseParams ps d

/-- RULE 3 tag parsing: locate the tag, take the scenario id before the
first `|`, parse the remaining segments.  `.ok none` when no tag. -/
def parseIntentTagE (assistant_message : String) :
    Except PyErr (Option (String × PyDict)) :=
  match findIntentTag assistant_message.data with
  | none => .ok none
  | some content =>
    let parts := splitOnCharAux '|' content []
    match parseParams (parts.drop 1) [] with
    | .error e => .error e
    | .ok d => .ok (some (String.mk (parts.headD []), d))

/-- Anchored match of `\s*\[INTENT:[^\]]+\]` for `re.sub`: greedy leading
whitespace, then a full tag.  Returns the remainder after the match. -/
def tagSubAt (s : List Char) : Option (List Char) :=
  let r := s.dropWhile isPySpace
  match afterLit r "[INTENT:".data with
  | some r2 =>
    if (r2.takeWhile (fun c => c ≠ ']')).isEmpty then none
    else
      match r2.dropWhile (fun c => c ≠ ']') with
      | ']' :: rest => some rest
      | _ => none
  | none => none

/-- `re.sub(r'\s*\[INTENT:[^\]]+\]', '', s)`: remove every (leftmost-first)
match.  Fuel is the string length; every match consumes at least one
character. -/
def subTagAux : ℕ → List Char → List Char
  | 0, s => s
  | fuel + 1, s =>
    match tagSubAt s with
    | some rest => subTagAux fuel rest
    | none =>
      match s with
      | [] => []
      | c :: cs => c :: subTagAux fuel cs

/-- Line 308: `re.sub(r'\s*\[INTENT:[^\]]+\]', '', assistant_message).strip()`. -/
def stripTag (assistant_message : String) : String :=
  String.mk (pyStrip (subTagAux assistant_message.data.length assistant_message.data))

/-- A scenario's entry in `PARAM_MAPPINGS`: either one canonical key name
(a plain string in the source) or a raw-key → canonical-key table. -/
inductive ParamMapping where
  | single (target : String)
  | multi (m : List (String × String))
deriving DecidableEq, Repr

/-- `PARAM_MAPPINGS` of RULE 3 (lines 313-351), verbatim. -/
def PARAM_MAPPINGS : List (String × ParamMapping) :=
  [("childbirth", .single "oneOffCosts"),
   ("buy_vehicle", .single "totalCost"),
   ("custom_goal", .multi
     [("name", "scenarioName"), ("target_amount", "targetAmount"),
      ("monthly_amount", "monthlyAmount"), ("type", "direction"),
      ("frequency", "frequency"), ("date", "targetDate")]),
   ("buy_home", .multi
     [("property_price", "propertyPrice"), ("deposit_amount", "depositAmount"),
      ("purchase_date", "purchaseDate"), ("targetAmount", "propertyPrice"),
      ("amount", "propertyPrice"), ("price", "propertyPrice"),
      ("cost", "propertyPrice"), ("date", "purchaseDate")]),
   ("marriage", .multi
     [("totalBudget", "totalBudget"), ("targetAmount", "totalBudget"),
      ("amount", "totalBudget"), ("cost", "totalBudget"),
      ("budget", "totalBudget"), ("value", "totalBudget"),
      ("date", "weddingDate"), ("weddingDate", "weddingDate")]),
   ("medical_emergency", .multi
     [("totalCost", "totalCost"), ("targetAmount", "totalCost"),
      ("amount", "totalCost"), ("cost", "totalCost")]),
   ("tax_bill", .multi
     [("billAmount", "billAmount"), ("targetAmount", "billAmount"),
      ("amount", "billAmount")]),
   ("home_improvement", .multi
     [("totalCost", "totalCost"), ("targetAmount", "totalCost"),
      ("amount", "totalCost"), ("cost", "totalCost")]),
   ("ivf_treatment", .multi
     [("totalCost", "totalCost"), ("targetAmount", "totalCost"),
      ("amount", "totalCost")]),
   ("help_family", .single "monthlyAmount"),
   ("elder_care", .single "monthlyAmount"),
   ("divorce", .single "settlementCost"),
   ("death_partner", .single "monthlyIncomeLost"),
   ("work_equipment", .single "totalCost"),
   ("debt_consolidation", .single "lumpSumPayment"),
   ("sell_asset", .single "saleProceeds"),
   ("windfall", .single "lumpSumAmount"),
   ("start_business", .single "investmentAmount"),
   ("property_repair", .single "repairCost")]

/-- `GENERIC_KEYS` of phase 2 (line 366), verbatim. -/
def GENERIC_KEYS : List String :=
  ["amount", "cost", "value", "price", "total", "settlement_amount",
   "total_settlement_cost", "monthly_income_lost", "lost_income"]

/-- `intent_params[dst] = intent_params.pop(src)` guarded by
`if src in intent_params`. -/
def renameKey (d : PyDict) (src dst : String) : PyDict :=
  match alistGet? d src with
  | some v => alistSet (alistRemove d src) dst v
  | none => d

/-- Phase 1: apply every rename of a scenario's multi-key table, in table
order. -/
def applyMultiMapping (m : List (String × String)) (d : PyDict) : PyDict :=
  m.foldl (fun d p => renameKey d p.1 p.2) d

/-- Phase 2 (lines 365-370): if `targetAmount` is absent, rename the first
present generic synonym to `targetAmount`. -/
def applyGenericNormalization (d : PyDict) : PyDict :=
  if (alistGet? d "targetAmount").isSome then d
  else
    match GENERIC_KEYS.find? (fun k => (alistGet? d k).isSome) with
    | some k => renameKey d k "targetAmount"
    | none => d

/-- Phase 3 (lines 372-377): scenarios with a plain-string mapping rename
`targetAmount` to their single canonical slot. -/
def applySingleMapping (sc : String) (d : PyDict) : PyDict :=
  match alistGet? PARAM_MAPPINGS sc with
  | some (.single t) =>
    if (alistGet? d "targetAmount").isSome then renameKey d "targetAmount" t else d
  | _ => d

/-- The three-phase parameter normalization of RULE 3 (lines 353-377). -/
def normalizeParams (sc : String) (d : PyDict) : PyDict :=
  let d1 :=
    match alistGet? PARAM_MAPPINGS sc with
    | some (.multi m) => applyMultiMapping m d
    | _ => d
  applySingleMapping sc (applyGenericNormalization d1)

/-- One conversation message (`{"role": ..., "content": ...}`). -/
structure Msg where
  role : String
  content : String
deriving DecidableEq, Repr

/-- `AIAgent.self.sessions`: session id → message list. -/
abbrev Sessions := List (String × List Msg)

/-- `self.sessions[session_id].append(m)` (the key exists whenever the
code appends; on a miss this models `setdefault`-like creation). -/
def appendMsg (s : Sessions) (sid : String) (m : Msg) : Sessions :=
  match alistGet? s sid with
  | some log => alistSet s sid (log ++ [m])
  | none => alistSet s sid [m]

/-- Session mutations performed before the model call (lines 124-190):
create the session with the system prompt on a miss, append the context
system message when a context prompt was built, append the user message. -/
def preCallSessions (sp cp : String) (s : Sessions) (sid input : String) : Sessions :=
  let s0 := if (alistGet? s sid).isSome then s else alistSet s sid [⟨"system", sp⟩]
  let s1 := if cp ≠ "" then appendMsg s0 sid ⟨"system", cp⟩ else s0
  appendMsg s1 sid ⟨"user", input⟩

/-- `self.sessions.get(session_id, [])`. -/
def sessionHistory (s : Sessions) (sid : String) : List Msg :=
  (alistGet? s sid).getD []

/-- Line 229: lower-cased contents of the user turns of a history. -/
def userContents (h : List Msg) : List String :=
  (h.filter (fun m => m.role = "user")).map (fun m => lowerStr m.content)

/-- The structured action returned to the UI. -/
structure ScenarioAction where
  type : String
  scenarioId : String
  params : PyDict
deriving DecidableEq, Repr

/-- The fields of `AgentResponse` that this flow ever sets. -/
structure AgentResponse where
  message : String
  profileComplete : Bool
  confidence : ℕ
  missingFields : List String
  intent : Option String
  params : Option PyDict
  action : Option ScenarioAction
deriving DecidableEq, Repr

/-- The `except Exception` handler (lines 444-453). -/
def errResponse (e : PyErr) : AgentResponse :=
  ⟨"I encountered an error: " ++ e.name ++ " - " ++ e.msg, false, 0, [],
   none, none, none⟩

/-- Python truthiness of `Optional[str]`. -/
def strTruthy : Option String → Bool
  | some s => s ≠ ""
  | none => false

/-- Python truthiness of `Optional[int]`. -/
def intTruthy : Option ℤ → Bool
  | some n => n ≠ 0
  | none => false

/-- Intermediate result of RULE 3 / RULE 4 for one turn. -/
structure TurnResult where
  clean : String
  intent : Option String
  params : PyDict
  action : Option ScenarioAction
deriving DecidableEq, Repr

/-- The smaller `PARAM_MAPPINGS` of RULE 4 (lines 395-404), verbatim. -/
def FALLBACK_MAPPINGS : List (String × String) :=
  [("childbirth", "oneOffCosts"), ("buy_vehicle", "totalCost"),
   ("buy_home", "propertyPrice"), ("marriage", "totalBudget"),
   ("medical_emergency", "totalCost"), ("tax_bill", "billAmount"),
   ("home_improvement", "totalCost"), ("work_equipment", "totalCost")]

/-- RULES 2-4 for one turn: scenario match and amount extraction over the
user turns, then tag parsing (authoritative when present, its parameters
normalized), else the regex fallback guarded by Python truthiness of the
match and amount and by the absence of `?` in the assistant output. -/
def turnDecision (lib : List (String × List String)) (assistant_message input : String)
    (user_messages : List String) : Except PyErr TurnResult :=
  let match_result := match_scenario lib input (some user_messages)
  let goal_type : Option String := match_result.map Prod.fst
  let amount : Option ℤ := extractAmount user_messages
  match parseIntentTagE assistant_message with
  | .error e => .error e
  | .ok (some sc_raw) =>
    let ps := normalizeParams sc_raw.1 sc_raw.2
    .ok ⟨stripTag assistant_message, some sc_raw.1, ps,
         some ⟨"OPEN_CONFIG", sc_raw.1, ps⟩⟩
  | .ok none =>
    if strTruthy goal_type && intTruthy amount && !(containsChar assistant_message '?') then
      let g := goal_type.getD ""
      let a := amount.getD 0
      let p0 : PyDict := [("targetAmount", PyValue.int a)]
      let p1 :=
        match alistGet? FALLBACK_MAPPINGS g with
        | some tk => renameKey p0 "targetAmount" tk
        | none => p0
      .ok ⟨assistant_message, some g, p1, some ⟨"OPEN_CONFIG", g, p1⟩⟩
    else .ok ⟨assistant_message, none, [], none⟩

/-- Lines 417-442: append the cleaned assistant message (or the fixed
acknowledgement when it is empty but an action exists), and build the
response with the coarse 0.9/0.0 confidence (in hundredths: 90/0). -/
def finishTurn (tr : TurnResult) (s2 : Sessions) (sid : String) :
    AgentResponse × Sessions :=
  let ack := "I\x27ve prepared that for you."
  let cm_s3 : String × Sessions :=
    if tr.clean ≠ "" then (tr.clean, appendMsg s2 sid ⟨"assistant", tr.clean⟩)
    else if tr.action.isSome then (ack, appendMsg s2 sid ⟨"assistant", ack⟩)
    else (tr.clean, s2)
  let conf : ℕ := if strTruthy tr.intent && !tr.params.isEmpty then 90 else 0
  (⟨cm_s3.1, false, conf, [], tr.intent,
    if tr.params.isEmpty then none else some tr.params, tr.action⟩, cm_s3.2)

/-- `AIAgent.processUserInput`.  External collaborators are parameters:
`llm` (the `chat.completions.create` call, possibly raising), `patternLib`
(the outcome of `get_matcher()`: the flattened pattern library, or the
load exception it re-raises on every call while the singleton stays
unset), `sp` (the system prompt) and `cp` (the built context prompt, `""`
when no context).  Any exception after the pre-call session mutations is
caught by the outer handler, which returns an error response and leaves
the already-mutated sessions in place. -/
def processUserInput (llm : List Msg → Except PyErr String)
    (patternLib : Except PyErr (List (String × List String)))
    (sp cp : String) (s : Sessions) (sid input : String) :
    AgentResponse × Sessions :=
  let s2 := preCallSessions sp cp s sid input
  match llm (sessionHistory s2 sid) with
  | .error e => (errResponse e, s2)
  | .ok assistant_message =>
    match patternLib with
    | .error e => (errResponse e, s2)
    | .ok lib =>
      match turnDecision lib assistant_message input
          (userContents (sessionHistory s2 sid)) with
      | .error e => (errResponse e, s2)
      | .ok tr => finishTurn tr s2 sid

/-- Module-level state of `agent_service.py`: the module-level `sessions`
dict (line 31, what `clear_session` touches) and the agent's own
`self.sessions` (line 72, what `processUserInput` reads and writes). -/
structure ServerState where
  moduleSessions : Sessions
  agentSessions : Sessions
deriving DecidableEq, Repr

/-- The `/api/chat` endpoint's session plumbing: the turn runs on the
agent's `self.sessions` only. -/
def chatTurn (llm : List Msg → Except PyErr String)
    (patternLib : Except PyErr (List (String × List String)))
    (sp cp : String) (st : ServerState) (sid input : String) :
    ServerState × AgentResponse :=
  let r := processUserInput llm patternLib sp cp st.agentSessions sid input
  (⟨st.moduleSessions, r.2⟩, r.1)

/-- The `DELETE /api/sessions/{session_id}` endpoint (lines 590-596): it
deletes from the module-level `sessions` dict and reports the status. -/
def clear_session (st : ServerState) (sid : String) : ServerState × String :=
  if (alistGet? st.moduleSessions sid).isSome then
    (⟨alistRemove st.moduleSessions sid, st.agentSessions⟩, "cleared")
  else (st, "not_found")

/-- A small concrete pattern library (the shape of `scenario_patterns.json`
entries) used by concrete instantiations. -/
def libES : List (String × List String) :=
  [("marriage", ["wedding", "getting married"]), ("buy_home", ["house"])]

/-- A model call that always raises. -/
def llmBoom : List Msg → Except PyErr String :=
  fun _ => .error ⟨"RuntimeError", "boom"⟩

/-- A model call that returns a plain greeting (no tag, no question). -/
def llmHello : List Msg → Except PyErr String :=
  fun _ => .ok "Hello!"

/-- A model call that answers with a clarifying question and no tag. -/
def llmAsk : List Msg → Except PyErr String :=
  fun _ => .ok "How much would you like to budget?"

/-- Server state after one `llmAsk` turn on session `s` from empty state. -/
def c9AfterTurn : ServerState :=
  (chatTurn llmAsk (.ok libES) "sys" "" ⟨[], []⟩ "s" "planning a wedding").1

-- ## Lemmas and theorems

theorem calc_score_zero (st : String) (ks : List String)
    (h : ∀ x ∈ ks, wordMatch x st = false) :
    calculate_match_score st ks = 0 := by
  have hf : ks.filter (fun x => wordMatch x st) = [] :=
    List.filter_eq_nil_iff.mpr (fun a ha => by simp [h a ha])
  unfold calculate_match_score
  rw [hf]
  simp

theorem calc_score_single (st : String) (ks1 ks2 : List String) (k : String)
    (hk : wordMatch k st = true) (hone : wordCount k = 1)
    (hothers : ∀ x ∈ ks1 ++ ks2, wordMatch x st = false) :
    calculate_match_score st (ks1 ++ k :: ks2) = 50 := by
  have h1 : ks1.filter (fun x => wordMatch x st) = [] :=
    List.filter_eq_nil_iff.mpr
      (fun a ha => by simp [hothers a (List.mem_append_left _ ha)])
  have h2 : ks2.filter (fun x => wordMatch x st) = [] :=
    List.filter_eq_nil_iff.mpr
      (fun a ha => by simp [hothers a (List.mem_append_right _ ha)])
  have hf : (ks1 ++ k :: ks2).filter (fun x => wordMatch x st) = [k] := by
    rw [List.filter_append, h1, List.filter_cons, if_pos hk, h2]
    rfl
  unfold calculate_match_score
  rw [hf]
  have hne : (ks1 ++ k :: ks2).isEmpty = false := by
    cases ks1 <;> rfl
  rw [hne]
  simp [hone]

theorem matchFold_skip (st : String) (l : List (String × List String))
    (b : Option String × ℕ)
    (h : ∀ e ∈ l, calculate_match_score st e.2 = 0) :
    l.foldl (matchStep st) b = b := by
  induction l generalizing b with
  | nil => rfl
  | cons e l ih =>
    have hstep : matchStep st b e = b := by
      unfold matchStep
      rw [h e (List.mem_cons_self ..)]
      simp
    rw [List.foldl_cons, hstep]
    exact ih b (fun x hx => h x (List.mem_cons_of_mem _ hx))

/-- C2: (1) a text whose lower-cased form matches, as a whole word,
exactly one single-word keyword of exactly one scenario of the library
and no other keyword of any scenario, scores exactly 0.5 (= 50/100) and
is accepted with that score (0.5 ≥ 0.45); (2) a text matching zero
keywords of every scenario scores 0.0 everywhere and yields no match. -/
theorem c2_matcher_threshold :
    (∀ (pre post : List (String × List String)) (sid : String)
        (ks1 ks2 : List String) (k : String) (text : String),
      wordMatch k (lowerStr text) = true →
      wordCount k = 1 →
      (∀ x ∈ ks1 ++ ks2, wordMatch x (lowerStr text) = false) →
      (∀ e ∈ pre ++ post, ∀ x ∈ e.2, wordMatch x (lowerStr text) = false) →
      match_scenario (pre ++ (sid, ks1 ++ k :: ks2) :: post) text none
        = some (sid, 50)) ∧
    (∀ (lib : List (String × List String)) (text : String),
      (∀ e ∈ lib, ∀ x ∈ e.2, wordMatch x (lowerStr text) = false) →
      (∀ e ∈ lib, calculate_match_score (lowerStr text) e.2 = 0) ∧
        match_scenario lib text none = none) := by
  constructor
  · intro pre post sid ks1 ks2 k text hk hone hothers hlib
    have hb : (pre ++ (sid, ks1 ++ k :: ks2) :: post).foldl
        (matchStep (lowerStr text)) (none, 0) = (some sid, 50) := by
      rw [List.foldl_append]
      rw [matchFold_skip _ pre _
        (fun e he => calc_score_zero _ _ (hlib e (List.mem_append_left _ he)))]
      rw [List.foldl_cons]
      have hstep : matchStep (lowerStr text) (none, 0) (sid, ks1 ++ k :: ks2)
          = (some sid, 50) := by
        unfold matchStep
        rw [calc_score_single _ _ _ _ hk hone hothers]
        simp
      rw [hstep]
      exact matchFold_skip _ post _
        (fun e he => calc_score_zero _ _ (hlib e (List.mem_append_right _ he)))
    simp only [match_scenario]
    rw [hb]
    simp
  · intro lib text hlib
    have hall : ∀ e ∈ lib, calculate_match_score (lowerStr text) e.2 = 0 :=
      fun e he => calc_score_zero _ _ (hlib e he)
    refine ⟨hall, ?_⟩
    simp only [match_scenario]
    rw [matchFold_skip _ lib _ hall]
    simp

/-- C2 witness: in a concrete two-scenario library, the text
`"Planning a wedding"` hits exactly the single-word keyword `wedding` of
`marriage` and is accepted at score 50 (= 0.5); `"hello there"` hits
nothing and is rejected. -/
theorem c2_matcher_threshold_witness :
    match_scenario libES "Planning a wedding" none = some ("marriage", 50) ∧
    match_scenario libES "hello there" none = none := by
  constructor
  · exact c2_matcher_threshold.1 [] [("buy_home", ["house"])] "marriage"
      [] ["getting married"] "wedding" "Planning a wedding"
      (by decide) (by decide)
      (by intro x hx; fin_cases hx <;> decide)
      (by intro e he; fin_cases he <;> intro x hx <;> fin_cases hx <;> decide)
  · exact (c2_matcher_threshold.2 libES "hello there"
      (by intro e he; fin_cases he <;> intro x hx <;> fin_cases hx <;> decide)).2

/-- C1 counterexample: on the user turns `["I need £500", "actually make
it £2000"]` (oldest first, lower-cased as the pipeline does) the amount
extractor does NOT return 2000: the newer turn matches none of the four
patterns (no `m`/`k` suffix, no comma-grouped `£` amount, no contextual
keyword), so the scan falls through to the older turn. -/
theorem c1_recency_counterexample :
    ¬ (extractAmount (["I need £500", "actually make it £2000"].map lowerStr)
        = some 2000) := by decide

/-- C1 amended: on those turns the extractor returns 500, extracted from
the OLDER turn by pattern 4 (`need £500`); the newer `£2000` is skipped
because it matches no pattern. -/
theorem c1_recency_amended :
    extractAmount (["I need £500", "actually make it £2000"].map lowerStr)
      = some 500 := by decide

/-- C5: parsing `"Sure! [INTENT:buy_home|property_price:250k|purchase_date:2027-06-01]"`
yields scenario `buy_home`, `property_price` coerced to the integer
250000 and `purchase_date` kept verbatim; stripping the tag yields
exactly `"Sure!"`. -/
theorem c5_tag_round_trip :
    parseIntentTagE "Sure! [INTENT:buy_home|property_price:250k|purchase_date:2027-06-01]"
        = Except.ok (some ("buy_home",
            [("property_price", PyValue.int 250000),
             ("purchase_date", PyValue.str "2027-06-01")]))
      ∧ stripTag "Sure! [INTENT:buy_home|property_price:250k|purchase_date:2027-06-01]"
        = "Sure!" := by decide

/-- C6: normalizing `{"cost": 3000}` for `medical_emergency` yields
`{"totalCost": 3000}` and not `{"targetAmount": 3000}`: the
scenario-specific rename consumes `cost` before the generic phase runs. -/
theorem c6_normalization_precedence :
    normalizeParams "medical_emergency" [("cost", PyValue.int 3000)]
        = [("totalCost", PyValue.int 3000)]
      ∧ normalizeParams "medical_emergency" [("cost", PyValue.int 3000)]
        ≠ [("targetAmount", PyValue.int 3000)] := by decide

/-- C3 counterexample: when the model call raises, the session log is NOT
left exactly as it was before the turn began — the incoming user message
remains appended (session `s` grows from one message to two). -/
theorem c3_session_counterexample :
    (processUserInput llmBoom (.ok libES) "sys" ""
        [("s", [⟨"system", "sys"⟩])] "s" "hello").2
      ≠ [("s", [⟨"system", "sys"⟩])] := by decide

/-- C3 amended: when the model call raises, the turn IS surfaced as a
single user-visible error message with zero confidence and no action, but
the session log is left in its pre-call state: the incoming user message
(plus any new-session system prompt and context system message) remains
appended; only the assistant turn is absent. -/
theorem c3_error_turn_amended (llm : List Msg → Except PyErr String)
    (patternLib : Except PyErr (List (String × List String)))
    (sp cp : String) (s : Sessions) (sid input : String) (e : PyErr)
    (hllm : llm (sessionHistory (preCallSessions sp cp s sid input) sid)
      = .error e) :
    processUserInput llm patternLib sp cp s sid input
      = (errResponse e, preCallSessions sp cp s sid input) := by
  simp only [processUserInput, hllm]

/-- C3 witness: the amended theorem at a concrete failing model call. -/
theorem c3_error_turn_witness :
    processUserInput llmBoom (.ok libES) "sys" ""
        [("s", [⟨"system", "sys"⟩])] "s" "hello"
      = (errResponse ⟨"RuntimeError", "boom"⟩,
         preCallSessions "sys" "" [("s", [⟨"system", "sys"⟩])] "s" "hello") :=
  c3_error_turn_amended llmBoom (.ok libES) "sys" ""
    [("s", [⟨"system", "sys"⟩])] "s" "hello" ⟨"RuntimeError", "boom"⟩ rfl

/-- C4 counterexample: with a failing pattern-library load and a model
call that returns `"Hello!"`, the chat turn is surfaced as an error
response — the user sees the error text, not the assistant text, so a
load failure does NOT merely disable matching. -/
theorem c4_load_failure_counterexample :
    (processUserInput llmHello
        (.error ⟨"FileNotFoundError", "scenario_patterns.json"⟩)
        "sys" "" [] "s" "hi").1.message
      = "I encountered an error: FileNotFoundError - scenario_patterns.json" ∧
    (processUserInput llmHello
        (.error ⟨"FileNotFoundError", "scenario_patterns.json"⟩)
        "sys" "" [] "s" "hi").1.message ≠ "Hello!" := by decide

/-- C4 amended: a pattern-library load failure does not crash the process
(the per-turn handler catches it), but it turns EVERY chat turn into a
user-visible error response with zero confidence, no intent and no
action, instead of disabling matching with a no-match. -/
theorem c4_load_failure_amended (llm : List Msg → Except PyErr String)
    (sp cp : String) (s : Sessions) (sid input am : String) (e : PyErr)
    (hllm : llm (sessionHistory (preCallSessions sp cp s sid input) sid)
      = .ok am) :
    processUserInput llm (.error e) sp cp s sid input
      = (errResponse e, preCallSessions sp cp s sid input) := by
  simp only [processUserInput, hllm]

/-- C4 witness: the amended theorem at a concrete load failure. -/
theorem c4_load_failure_witness :
    processUserInput llmHello
        (.error ⟨"FileNotFoundError", "scenario_patterns.json"⟩)
        "sys" "" [] "s" "hi"
      = (errResponse ⟨"FileNotFoundError", "scenario_patterns.json"⟩,
         preCallSessions "sys" "" [] "s" "hi") :=
  c4_load_failure_amended llmHello "sys" "" [] "s" "hi" "Hello!"
    ⟨"FileNotFoundError", "scenario_patterns.json"⟩ rfl

theorem turnDecision_no_tag_question (lib : List (String × List String))
    (am input : String) (msgs : List String)
    (htag : findIntentTag am.data = none) (hq : containsChar am '?' = true) :
    turnDecision lib am input msgs = .ok ⟨am, none, [], none⟩ := by
  have hpt : parseIntentTagE am = .ok none := by
    unfold parseIntentTagE
    rw [htag]
  simp [turnDecision, hpt, hq]

/-- C7: for every turn in which the assistant output parses to no intent
tag, the scenario matcher produced a match and the amount extractor
produced a value, an assistant output containing a question mark yields
no action. -/
theorem c7_question_mark_suppression
    (llm : List Msg → Except PyErr String) (lib : List (String × List String))
    (sp cp : String) (s : Sessions) (sid input am : String)
    (hllm : llm (sessionHistory (preCallSessions sp cp s sid input) sid)
      = .ok am)
    (htag : findIntentTag am.data = none)
    (hmatch : (match_scenario lib input
        (some (userContents
          (sessionHistory (preCallSessions sp cp s sid input) sid)))).isSome
      = true)
    (hamt : (extractAmount (userContents
        (sessionHistory (preCallSessions sp cp s sid input) sid))).isSome
      = true)
    (hq : containsChar am '?' = true) :
    (processUserInput llm (.ok lib) sp cp s sid input).1.action = none := by
  simp only [processUserInput, hllm,
    turnDecision_no_tag_question lib am input _ htag hq]
  rfl

/-- C7 witness: concrete turn where the matcher fires (`wedding`), the
extractor fires (`150k`), the assistant output has no tag and asks a
question — and no action is emitted. -/
theorem c7_question_mark_witness :
    (processUserInput llmAsk (.ok libES) "sys" "" [] "s"
        "planning a wedding, need 150k").1.action = none :=
  c7_question_mark_suppression llmAsk libES "sys" "" [] "s"
    "planning a wedding, need 150k" "How much would you like to budget?"
    rfl (by decide) (by decide) (by decide) (by decide)

/-- C9 (code evaluated at the failing input): after one chat turn on
session `s`, `DELETE /api/sessions/s` reports `not_found` and leaves the
whole server state unchanged — the agent's conversation log for `s` still
contains the first user turn, which the next turn's matcher and amount
extractor will see, instead of the claimed fresh session. -/
theorem c9_clear_session_evaluation :
    (clear_session c9AfterTurn "s").2 = "not_found" ∧
    (clear_session c9AfterTurn "s").1 = c9AfterTurn ∧
    userContents
        (sessionHistory ((clear_session c9AfterTurn "s").1.agentSessions) "s")
      = ["planning a wedding"] := by decide

theorem takeWhile_append_all (p : Char → Bool) (l1 l2 : List Char)
    (h1 : ∀ c ∈ l1, p c = true) :
    (l1 ++ l2).takeWhile p = l1 ++ l2.takeWhile p ∧
      (l1 ++ l2).dropWhile p = l2.dropWhile p := by
  induction l1 with
  | nil => simp
  | cons c cs ih =>
    have hc := h1 c (List.mem_cons_self ..)
    have h2 := ih (fun x hx => h1 x (List.mem_cons_of_mem _ hx))
    simp [List.takeWhile_cons, List.dropWhile_cons, hc, h2.1, h2.2]

theorem takeWhile_all (p : Char → Bool) (l : List Char)
    (h : ∀ c ∈ l, p c = true) :
    l.takeWhile p = l ∧ l.dropWhile p = [] := by
  have := takeWhile_append_all p l [] h
  simpa using this

theorem isPySpace_false_of_digit (c : Char) (h : c.isDigit = true) :
    isPySpace c = false := by
  cases hs : isPySpace c
  · rfl
  · exfalso
    simp only [isPySpace, Bool.or_eq_true, beq_iff_eq] at hs
    rcases hs with ((((rfl | rfl) | rfl) | rfl) | rfl) | rfl <;> exact absurd h (by decide)

theorem isDigit_false_of_space (c : Char) (h : isPySpace c = true) :
    c.isDigit = false := by
  simp only [isPySpace, Bool.or_eq_true, beq_iff_eq] at h
  rcases h with ((((rfl | rfl) | rfl) | rfl) | rfl) | rfl <;> decide

theorem ne_pound_of_digit (c : Char) (h : c.isDigit = true) : c ≠ '£' := by
  intro he
  subst he
  exact absurd h (by decide)

theorem ne_dot_of_space (c : Char) (h : isPySpace c = true) : c ≠ '.' := by
  simp only [isPySpace, Bool.or_eq_true, beq_iff_eq] at h
  rcases h with ((((rfl | rfl) | rfl) | rfl) | rfl) | rfl <;> decide

theorem numTail_digits_m (d w r : List Char) (hd : d ≠ [])
    (hdd : ∀ c ∈ d, c.isDigit = true) (hw : ∀ c ∈ w, isPySpace c = true) :
    numTail 'm' (d ++ (w ++ 'm' :: r)) = some d := by
  have hw1 : (w ++ 'm' :: r).takeWhile Char.isDigit = [] := by
    cases w with
    | nil => simp [List.takeWhile_cons]
    | cons w0 w' =>
      have h0 := isDigit_false_of_space w0 (hw w0 (List.mem_cons_self ..))
      simp [List.takeWhile_cons, h0]
  have hw2 : (w ++ 'm' :: r).dropWhile Char.isDigit = w ++ 'm' :: r := by
    cases w with
    | nil => simp [List.dropWhile_cons]
    | cons w0 w' =>
      have h0 := isDigit_false_of_space w0 (hw w0 (List.mem_cons_self ..))
      simp [List.dropWhile_cons, h0]
  have ht := takeWhile_append_all Char.isDigit d (w ++ 'm' :: r) hdd
  have hds : (d ++ (w ++ 'm' :: r)).takeWhile Char.isDigit = d := by
    rw [ht.1, hw1, List.append_nil]
  have hdrop : (d ++ (w ++ 'm' :: r)).dropWhile Char.isDigit = w ++ 'm' :: r := by
    rw [ht.2, hw2]
  have hfrac : fracAt (w ++ 'm' :: r) = ([], w ++ 'm' :: r) := by
    cases w with
    | nil => simp [fracAt]
    | cons w0 w' =>
      have h0 := ne_dot_of_space w0 (hw w0 (List.mem_cons_self ..))
      simp [fracAt, h0]
  have hsp := takeWhile_append_all isPySpace w ('m' :: r) hw
  have hsp2 : (w ++ 'm' :: r).dropWhile isPySpace = 'm' :: r := by
    rw [hsp.2]
    simp [List.dropWhile_cons, show isPySpace 'm' = false from by decide]
  have hde : d.isEmpty = false := by
    cases d with
    | nil => exact absurd rfl hd
    | cons a b => rfl
  simp only [numTail, hds, hdrop, hfrac, hsp2, hde]
  simp

theorem dropWhile_sp_digitfree (y b : List Char)
    (hy : ∀ c ∈ y, c.isDigit = false) :
    (y ++ b).dropWhile isPySpace = b.dropWhile isPySpace ∨
      ∃ c t, (y ++ b).dropWhile isPySpace = c :: t ∧ isPySpace c = false ∧
        c.isDigit = false := by
  induction y with
  | nil => exact Or.inl rfl
  | cons c cs ih =>
    by_cases hc : isPySpace c = true
    · have hrec := ih (fun x hx => hy x (List.mem_cons_of_mem _ hx))
      simpa [List.cons_append, List.dropWhile_cons, hc] using hrec
    · right
      refine ⟨c, cs ++ b, ?_, by simpa using hc, hy c (List.mem_cons_self ..)⟩
      simp [List.cons_append, List.dropWhile_cons, hc]

theorem numTail_nondigit_head (c : Char) (t : List Char)
    (hc : c.isDigit = false) : numTail 'm' (c :: t) = none := by
  simp [numTail, List.takeWhile_cons, hc]

theorem suffixAfter_digitfree (y d w r : List Char)
    (hy : ∀ c ∈ y, c.isDigit = false) (hd : d ≠ [])
    (hdd : ∀ c ∈ d, c.isDigit = true) (hw : ∀ c ∈ w, isPySpace c = true) :
    numTail 'm' ((y ++ (d ++ (w ++ 'm' :: r))).dropWhile isPySpace) = none ∨
      numTail 'm' ((y ++ (d ++ (w ++ 'm' :: r))).dropWhile isPySpace) = some d := by
  rcases dropWhile_sp_digitfree y (d ++ (w ++ 'm' :: r)) hy with h | ⟨c, t, h, _, hcd⟩
  · right
    rw [h]
    obtain ⟨d0, d', rfl⟩ := List.exists_cons_of_ne_nil hd
    have h0 : d0.isDigit = true := hdd _ (List.mem_cons_self ..)
    have hds : ((d0 :: d') ++ (w ++ 'm' :: r)).dropWhile isPySpace
        = (d0 :: d') ++ (w ++ 'm' :: r) := by
      simp [List.cons_append, List.dropWhile_cons, isPySpace_false_of_digit d0 h0]
    rw [hds]
    exact numTail_digits_m (d0 :: d') w r hd hdd hw
  · left
    rw [h]
    exact numTail_nondigit_head c t hcd

theorem suffixNumAt_digits_m (d w r : List Char) (hd : d ≠ [])
    (hdd : ∀ c ∈ d, c.isDigit = true) (hw : ∀ c ∈ w, isPySpace c = true) :
    suffixNumAt 'm' (d ++ (w ++ 'm' :: r)) = some d := by
  obtain ⟨d0, d', rfl⟩ := List.exists_cons_of_ne_nil hd
  have h0 : d0.isDigit = true := hdd _ (List.mem_cons_self ..)
  have hp : dropPound ((d0 :: d') ++ (w ++ 'm' :: r))
      = (d0 :: d') ++ (w ++ 'm' :: r) := by
    simp only [List.cons_append, dropPound]
    rw [if_neg (ne_pound_of_digit d0 h0)]
  have hsp : ((d0 :: d') ++ (w ++ 'm' :: r)).dropWhile isPySpace
      = (d0 :: d') ++ (w ++ 'm' :: r) := by
    simp [List.cons_append, List.dropWhile_cons, isPySpace_false_of_digit d0 h0]
  unfold suffixNumAt
  rw [hp, hsp]
  exact numTail_digits_m (d0 :: d') w r hd hdd hw

theorem suffixNumAt_digitfree_prefix (x d w r : List Char)
    (hx : ∀ c ∈ x, c.isDigit = false) (hd : d ≠ [])
    (hdd : ∀ c ∈ d, c.isDigit = true) (hw : ∀ c ∈ w, isPySpace c = true) :
    suffixNumAt 'm' (x ++ (d ++ (w ++ 'm' :: r))) = none ∨
      suffixNumAt 'm' (x ++ (d ++ (w ++ 'm' :: r))) = some d := by
  cases x with
  | nil =>
    right
    simpa using suffixNumAt_digits_m d w r hd hdd hw
  | cons x0 x' =>
    unfold suffixNumAt
    by_cases h0 : x0 = '£'
    · subst h0
      have hp : dropPound (('£' :: x') ++ (d ++ (w ++ 'm' :: r)))
          = x' ++ (d ++ (w ++ 'm' :: r)) := by
        simp [List.cons_append, dropPound]
      rw [hp]
      exact suffixAfter_digitfree x' d w r
        (fun c hc => hx c (List.mem_cons_of_mem _ hc)) hd hdd hw
    · have hp : dropPound ((x0 :: x') ++ (d ++ (w ++ 'm' :: r)))
          = (x0 :: x') ++ (d ++ (w ++ 'm' :: r)) := by
        simp only [List.cons_append, dropPound]
        rw [if_neg h0]
      rw [hp]
      exact suffixAfter_digitfree (x0 :: x') d w r hx hd hdd hw

theorem searchPat_cons (f : List Char → Option (List Char)) (c : Char)
    (cs : List Char) :
    searchPat f (c :: cs)
      = match f (c :: cs) with
        | some g => some g
        | none => searchPat f cs := rfl

theorem searchPat_millions (x d w r : List Char)
    (hx : ∀ c ∈ x, c.isDigit = false) (hd : d ≠ [])
    (hdd : ∀ c ∈ d, c.isDigit = true) (hw : ∀ c ∈ w, isPySpace c = true) :
    searchPat (suffixNumAt 'm') (x ++ (d ++ (w ++ 'm' :: r))) = some d := by
  induction x with
  | nil =>
    have h := suffixNumAt_digits_m d w r hd hdd hw
    obtain ⟨d0, d', rfl⟩ := List.exists_cons_of_ne_nil hd
    simp only [List.nil_append, List.cons_append] at h ⊢
    rw [searchPat_cons, h]
  | cons x0 x' ih =>
    have hB := suffixNumAt_digitfree_prefix (x0 :: x') d w r hx hd hdd hw
    simp only [List.cons_append] at hB ⊢
    rw [searchPat_cons]
    rcases hB with hnone | hsome
    · rw [hnone]
      exact ih (fun c hc => hx c (List.mem_cons_of_mem _ hc))
    · rw [hsome]

theorem extractFromTurn_millions (p d w r : String)
    (hp : ∀ c ∈ p.data, c.isDigit = false) (hd : d.data ≠ [])
    (hdd : ∀ c ∈ d.data, c.isDigit = true)
    (hw : ∀ c ∈ w.data, isPySpace c = true) :
    extractFromTurn (p ++ d ++ w ++ "m" ++ r)
      = some (groupAmountScaled d.data 1000000) := by
  have hdata : (p ++ d ++ w ++ "m" ++ r).data
      = p.data ++ (d.data ++ (w.data ++ 'm' :: r.data)) := by
    simp [String.data_append, List.append_assoc]
  unfold extractFromTurn
  rw [hdata]
  simp only [searchPat_millions p.data d.data w.data r.data hp hd hdd hw]

theorem extractAmountGo_append_none (l1 l2 : List String)
    (h : ∀ u ∈ l1, extractFromTurn u = none) :
    extractAmountGo (l1 ++ l2) = extractAmountGo l2 := by
  induction l1 with
  | nil => rfl
  | cons a l ih =>
    simp only [List.cons_append, extractAmountGo, h a (List.mem_cons_self ..)]
    exact ih (fun x hx => h x (List.mem_cons_of_mem _ hx))

theorem bitlenAux_zero (fuel : ℕ) : bitlenAux fuel 0 = 0 := by
  cases fuel <;> rfl

theorem bitlenAux_spec (fuel : ℕ) : ∀ n : ℕ, n ≤ fuel → 1 ≤ n →
    2 ^ (bitlenAux fuel n - 1) ≤ n ∧ n < 2 ^ bitlenAux fuel n := by
  induction fuel with
  | zero => intro n h1 h2; omega
  | succ fuel ih =>
    intro n hn h1
    rw [show bitlenAux (fuel + 1) n
      = if n = 0 then 0 else bitlenAux fuel (n / 2) + 1 from rfl]
    rw [if_neg (by omega)]
    by_cases h2 : n / 2 = 0
    · have hn1 : n = 1 := by omega
      subst hn1
      rw [show (1 : ℕ) / 2 = 0 from rfl, bitlenAux_zero]
      norm_num
    · have hrec := ih (n / 2) (by omega) (by omega)
      have hb1 : 1 ≤ bitlenAux fuel (n / 2) := by
        rcases Nat.eq_zero_or_pos (bitlenAux fuel (n / 2)) with hb0 | hb0
        · exfalso
          rw [hb0] at hrec
          norm_num at hrec
          omega
        · exact hb0
      set b := bitlenAux fuel (n / 2) with hb
      constructor
      · rw [show 2 ^ ((b + 1) - 1) = 2 * 2 ^ (b - 1) by
          rw [show (b + 1) - 1 = (b - 1) + 1 from by omega, pow_succ]
          ring]
        have := hrec.1
        omega
      · rw [show 2 ^ ((b + 1)) = 2 * 2 ^ b by rw [pow_succ]; ring]
        have := hrec.2
        omega

theorem bitlen_spec (n : ℕ) (h : 1 ≤ n) :
    2 ^ (bitlen n - 1) ≤ n ∧ n < 2 ^ bitlen n :=
  bitlenAux_spec n n le_rfl h

theorem bitlen_pos (n : ℕ) (h : 1 ≤ n) : 1 ≤ bitlen n := by
  have hs := bitlen_spec n h
  rcases Nat.eq_zero_or_pos (bitlen n) with h0 | h0
  · exfalso
    rw [h0] at hs
    norm_num at hs
    omega
  · exact h0

theorem bitlen_eq_of_bounds (n c : ℕ) (hc : 1 ≤ c)
    (hlo : 2 ^ (c - 1) ≤ n) (hhi : n < 2 ^ c) : bitlen n = c := by
  have hn : 1 ≤ n := le_trans Nat.one_le_two_pow hlo
  have hs := bitlen_spec n hn
  have hbp := bitlen_pos n hn
  by_contra hne
  rcases Nat.lt_or_ge (bitlen n) c with hlt | hge
  · have hle : 2 ^ bitlen n ≤ 2 ^ (c - 1) :=
      Nat.pow_le_pow_right (by norm_num) (by omega)
    omega
  · have hgt : c < bitlen n := by omega
    have hle : 2 ^ c ≤ 2 ^ (bitlen n - 1) :=
      Nat.pow_le_pow_right (by norm_num) (by omega)
    omega

theorem bitlen_mul_two_pow (V j : ℕ) (hV : 1 ≤ V) :
    bitlen (V * 2 ^ j) = bitlen V + j := by
  have hs := bitlen_spec V hV
  have hbp := bitlen_pos V hV
  apply bitlen_eq_of_bounds
  · omega
  · rw [show bitlen V + j - 1 = (bitlen V - 1) + j from by omega, pow_add]
    exact Nat.mul_le_mul_right _ hs.1
  · rw [pow_add]
    exact Nat.mul_lt_mul_of_pos_right hs.2 (pow_pos (by norm_num) j)

theorem bitlen_two_pow (j : ℕ) : bitlen (2 ^ j) = j + 1 := by
  have h := bitlen_mul_two_pow 1 j le_rfl
  rw [one_mul] at h
  rw [h, show bitlen 1 = 1 from rfl]
  omega

/-- `flPosAux` with a nonnegative shift and an exact division performs no
rounding: the mantissa is the exact quotient. -/
theorem flPosAux_exact (a b t : ℕ) (hb : 0 < b) (hr : a * 2 ^ t % b = 0) :
    flPosAux a b ((t : ℕ) : ℤ) = (a * 2 ^ t / b, -((t : ℕ) : ℤ)) := by
  simp only [flPosAux, Int.toNat_natCast,
    show ((-((t : ℕ) : ℤ))).toNat = 0 from by omega, pow_zero, mul_one, hr]
  rw [if_neg (by omega), if_pos (by omega)]

/-- `flPos` is exact on values `V · 2 ^ (-j)` wait no: on `(V · 2 ^ j) / 2 ^ j = V`
with `V < 2 ^ 53`: the scaled quotient is exactly representable, so no
rounding happens and the result denotes exactly `V`. -/
theorem flPos_exact (V j : ℕ) (h1 : 1 ≤ V) (h53 : V < 2 ^ 53) :
    flPos (V * 2 ^ j) (2 ^ j)
      = some (V * 2 ^ (53 - bitlen V), -((53 - bitlen V : ℕ) : ℤ)) := by
  have hbp := bitlen_pos V h1
  have hs := bitlen_spec V h1
  have hb53 : bitlen V ≤ 53 := by
    by_contra hgt
    have hle : 2 ^ 53 ≤ 2 ^ (bitlen V - 1) :=
      Nat.pow_le_pow_right (by norm_num) (by omega)
    omega
  have ha0 : ¬ (V * 2 ^ j = 0) := by positivity
  have e1 : bitlen (V * 2 ^ j) = bitlen V + j := bitlen_mul_two_pow V j h1
  have e2 : bitlen (2 ^ j) = j + 1 := bitlen_two_pow j
  set nb := bitlen V with hnb
  have es0 : (52 : ℤ) - (((nb + j : ℕ) : ℤ) - ((j + 1 : ℕ) : ℤ))
      = ((53 - nb : ℕ) : ℤ) := by
    push_cast
    omega
  have et1 : (((53 - nb : ℕ) : ℤ)).toNat = 53 - nb := Int.toNat_natCast _
  have et2 : ((-((53 - nb : ℕ) : ℤ))).toNat = 0 := by omega
  have hq0lo : 2 ^ 52 ≤ V * 2 ^ (53 - nb) := by
    calc 2 ^ 52 = 2 ^ (nb - 1) * 2 ^ (53 - nb) := by
          rw [← pow_add]
          congr 1
          omega
    _ ≤ V * 2 ^ (53 - nb) := Nat.mul_le_mul_right _ hs.1
  have hq0hi : V * 2 ^ (53 - nb) < 2 ^ 53 := by
    calc V * 2 ^ (53 - nb) < 2 ^ nb * 2 ^ (53 - nb) :=
          Nat.mul_lt_mul_of_pos_right hs.2 (pow_pos (by norm_num) _)
    _ = 2 ^ 53 := by
          rw [← pow_add]
          congr 1
          omega
  have eq1 : V * 2 ^ j * 2 ^ (53 - nb) / 2 ^ j = V * 2 ^ (53 - nb) := by
    rw [show V * 2 ^ j * 2 ^ (53 - nb) = V * 2 ^ (53 - nb) * 2 ^ j from by ring,
      Nat.mul_div_cancel _ (pow_pos (by norm_num) j)]
  have er1 : V * 2 ^ j * 2 ^ (53 - nb) % 2 ^ j = 0 := by
    rw [show V * 2 ^ j * 2 ^ (53 - nb) = V * 2 ^ (53 - nb) * 2 ^ j from by ring]
    exact Nat.mul_mod_left _ _
  have haux := flPosAux_exact (V * 2 ^ j) (2 ^ j) (53 - nb)
    (pow_pos (by norm_num) j) er1
  have hge : ¬ (V * 2 ^ (53 - nb) < 2 ^ 52) := by omega
  have hne : ¬ (V * 2 ^ (53 - nb) = 2 ^ 53) := by omega
  have hc1 : ¬ ((-((53 - nb : ℕ) : ℤ)) < -1074) := by omega
  have hc2 : ¬ ((971 : ℤ) < -((53 - nb : ℕ) : ℤ)) := by omega
  simp only [flPos, e1, e2, es0, et1, et2, pow_zero, mul_one, eq1, ha0, hge,
    haux, hne, hc1, hc2, if_false, ite_false]

/-- In the exact regime (`natOfDigits g · 1000000 < 2 ^ 53`, where CPython
float arithmetic is exact), the rounded amount IS the exact product. -/
theorem groupAmountScaled_exact (g : List Char) (hg : ∀ c ∈ g, c.isDigit = true)
    (hsmall : natOfDigits g * 1000000 < 2 ^ 53) :
    groupAmountScaled g 1000000 = (natOfDigits g : ℤ) * 1000000 := by
  have ht := takeWhile_all Char.isDigit g hg
  simp only [groupAmountScaled, ht.1, ht.2, List.append_nil, List.length_nil,
    pow_zero]
  rcases Nat.eq_zero_or_pos (natOfDigits g) with hV | hV
  · rw [hV]
    decide
  · have hV53 : natOfDigits g < 2 ^ 53 := by
      have hle : natOfDigits g ≤ natOfDigits g * 1000000 :=
        Nat.le_mul_of_pos_right _ (by norm_num)
      omega
    have h1 := flPos_exact (natOfDigits g) 0 hV hV53
    rw [pow_zero, mul_one] at h1
    set nb := bitlen (natOfDigits g) with hnb
    have et2 : ((-((53 - nb : ℕ) : ℤ))).toNat = 0 := by omega
    have et3 : ((-(-((53 - nb : ℕ) : ℤ)))).toNat = 53 - nb := by omega
    simp only [h1, et2, et3, pow_zero, mul_one]
    rw [show natOfDigits g * 2 ^ (53 - nb) * 1000000
      = natOfDigits g * 1000000 * 2 ^ (53 - nb) from by ring]
    have h2 := flPos_exact (natOfDigits g * 1000000) (53 - nb)
      (Nat.mul_pos hV (by norm_num)) hsmall
    set W := natOfDigits g * 1000000 with hW
    set bw := bitlen W with hbw
    simp only [h2, dblToInt]
    by_cases hc : 53 - bw = 0
    · rw [hc]
      norm_num
      omega
    · rw [if_neg (by omega),
        show ((-(-((53 - bw : ℕ) : ℤ)))).toNat = 53 - bw from by omega,
        Nat.mul_div_cancel _ (pow_pos (by norm_num) _)]
      omega

/-- C10 counterexample: for the user turn `"in 999999999999 months"` the
extractor returns 999999999999000064 — `int(float("999999999999") *
1000000)` rounds the product to the nearest double before truncation —
and NOT the claimed exact multiple 999999999999 × 1,000,000 =
999999999999000000. -/
theorem c10_millions_counterexample :
    extractAmount ["in 999999999999 months"] = some 999999999999000064 ∧
    extractAmount ["in 999999999999 months"] ≠ some 999999999999000000 := by
  decide

/-- C10 amended: the millions pattern requires no word boundary after
`m`.  Any turn of the form `<digit-free prefix><digits><whitespace>m<anything>`
— for example a number followed by the word `months` — makes the
extractor return that number times 1,000,000, provided the product is
below `2 ^ 53` (where CPython float arithmetic is exact; larger numbers
yield the double-rounded product instead).  `newer` turns that match no
pattern are scanned first and skipped; `older` turns are never
consulted. -/
theorem c10_millions_no_boundary (older newer : List String) (p d w r : String)
    (hp : ∀ c ∈ p.data, c.isDigit = false) (hd : d.data ≠ [])
    (hdd : ∀ c ∈ d.data, c.isDigit = true)
    (hw : ∀ c ∈ w.data, isPySpace c = true)
    (hnew : ∀ u ∈ newer, extractFromTurn u = none)
    (hsmall : natOfDigits d.data * 1000000 < 2 ^ 53) :
    extractAmount (older ++ (p ++ d ++ w ++ "m" ++ r) :: newer)
      = some ((natOfDigits d.data : ℤ) * 1000000) := by
  unfold extractAmount
  rw [show (older ++ (p ++ d ++ w ++ "m" ++ r) :: newer).reverse
      = newer.reverse ++ ((p ++ d ++ w ++ "m" ++ r) :: older.reverse) by
    simp [List.reverse_append]]
  rw [extractAmountGo_append_none newer.reverse _
    (fun u hu => hnew u (List.mem_reverse.mp hu))]
  simp only [extractAmountGo, extractFromTurn_millions p d w r hp hd hdd hw,
    groupAmountScaled_exact d.data hdd hsmall]

/-- C10 witness: `"in 5 months"` as the only turn yields 5,000,000
(5 × 1,000,000 is far below `2 ^ 53`, so the arithmetic is exact). -/
theorem c10_millions_witness :
    extractAmount ["in 5 months"] = some 5000000 := by
  have h := c10_millions_no_boundary [] [] "in " "5" " " "onths"
    (by decide) (by decide) (by decide) (by decide)
    (by intro u hu; cases hu) (by decide)
  exact h
